import Mathlib

/-!
Shallow embedding of `simplecrypt/__init__.py` (password-based symmetric
encryption: PBKDF2-style key expansion, AES-CTR encryption, HMAC tag,
`sc\x00\x00`-prefixed envelope).

Bytes are modelled as `List Nat`; the external cryptographic collaborators
(PBKDF2, HMAC, SHA256, the AES-CTR keystream) are fields of a `Prims`
structure, since the module treats them as opaque library primitives with
fixed contracts.  Counter-mode encryption/decryption is XOR against a
keystream determined by the key and the `Counter.new` configuration that the
module passes to the cipher.
-/

/-- `EXPANSION_COUNT = 1000` from the source. -/
def EXPANSION_COUNT : Nat := 1000

/-- `AES_KEY_LEN = 256` (bits) from the source. -/
def AES_KEY_LEN : Nat := 256

/-- `SALT_LEN = 128` (bits) from the source. -/
def SALT_LEN : Nat := 128

/-- `AES.block_size` of the external cipher, in bytes (16 for AES). -/
def AES_block_size : Nat := 16

/-- `HALF_BLOCK = AES.block_size*8//2` from the source (bits). -/
def HALF_BLOCK : Nat := AES_block_size * 8 / 2

/-- `HASH.digest_size` for `HASH = SHA256`: 32 bytes. -/
def HASH_digest_size : Nat := 32

/-- The constant format marker `PREFIX = b'sc\x00\x00'` from the source
(`s` = 115, `c` = 99). -/
def FORMAT_HEADER : List Nat := [115, 99, 0, 0]

/-- The failure conditions the module can raise. -/
inductive CryptErr where
  /-- `EncryptionException('Message too long')` -/
  | encMessageTooLong : CryptErr
  /-- `DecryptionException('Missing data')` -/
  | decMissingData : CryptErr
  /-- `DecryptionException('Bad data format')` -/
  | decBadFormat : CryptErr
  /-- `DecryptionException('Bad password or corrupt / modified data')` -/
  | decBadHmac : CryptErr
  /-- `ValueError('Missing salt')` -/
  | valueMissingSalt : CryptErr
  /-- `ValueError('Missing password')` -/
  | valueMissingPassword : CryptErr
  deriving DecidableEq, Repr

/-- The configuration the module hands to `Crypto.Util.Counter.new`: the
counter width in bits and the fixed nonce bytes placed before the counter.
The module passes exactly these two arguments at both call sites. -/
structure CtrCfg where
  ctrBits : Nat
  fixedPfx : List Nat
  deriving DecidableEq, Repr

/-- `Counter.new(bits, prefix=pfx)` from the source, recording the arguments
the module passes to the external counter constructor. -/
def counterNew (bits : Nat) (pfx : List Nat) : CtrCfg :=
  { ctrBits := bits, fixedPfx := pfx }

/-- The external cryptographic primitives used by the module, kept opaque:
`pbkdf2 password salt dkLen count`, `hmacNew key msg` (the HMAC digest),
`shaNew data` (the plain hash digest), and `keystream key cfg i` (byte `i`
of the AES-CTR keystream for a given counter configuration). -/
structure Prims where
  pbkdf2 : List Nat → List Nat → Nat → Nat → List Nat
  hmacNew : List Nat → List Nat → List Nat
  shaNew : List Nat → List Nat
  keystream : List Nat → CtrCfg → Nat → Nat

/-- XOR of data against a keystream starting at byte index `i`: the action
of `cipher.encrypt` / `cipher.decrypt` for a CTR-mode stream cipher. -/
def ctr_xor (ks : Nat → Nat) : Nat → List Nat → List Nat
  | _, [] => []
  | i, b :: rest => Nat.xor b (ks i) :: ctr_xor ks (i + 1) rest

/-- `_hash(data)` from the source: the plain `HASH` digest of `data`. -/
def priv_hash (P : Prims) (data : List Nat) : List Nat :=
  P.shaNew data

/-- `_randbytes(n)` from the source: `n` bytes drawn from the random
source, modelled as the first `n` values of the stream `rand`. -/
def priv_randbytes (rand : Nat → Nat) (n : Nat) : List Nat :=
  (List.range n).map rand

/-- `_assert_encrypt_length(data)` from the source: raises
`EncryptionException('Message too long')` when `len(data) > 2**HALF_BLOCK`. -/
def assert_encrypt_length (data : List Nat) : Except CryptErr Unit :=
  if data.length > 2 ^ HALF_BLOCK then .error .encMessageTooLong else .ok ()

/-- `_assert_decrypt_length(data)` from the source: raises
`DecryptionException('Missing data')` when the envelope is shorter than
`len(PREFIX) + SALT_LEN//8 + HASH.digest_size`. -/
def assert_decrypt_length (data : List Nat) : Except CryptErr Unit :=
  if data.length < FORMAT_HEADER.length + SALT_LEN / 8 + HASH_digest_size then
    .error .decMissingData
  else .ok ()

/-- `_assert_prefix(data)` from the source: raises
`DecryptionException('Bad data format')` when the leading bytes differ from
the constant format marker. -/
def assert_format_marker (data : List Nat) : Except CryptErr Unit :=
  if data.take FORMAT_HEADER.length ≠ FORMAT_HEADER then .error .decBadFormat
  else .ok ()

/-- `_assert_hmac(hmac, hmac2)` from the source: hashes both tags and
raises `DecryptionException('Bad password or corrupt / modified data')`
when the digests differ. -/
def assert_hmac (P : Prims) (hmac hmac2 : List Nat) : Except CryptErr Unit :=
  if priv_hash P hmac ≠ priv_hash P hmac2 then .error .decBadHmac else .ok ()

/-- The key produced by `PBKDF2(password, salt, dkLen=AES_KEY_LEN//8,
count=EXPANSION_COUNT)` in `_expand_key`. -/
def derived_key (P : Prims) (password salt : List Nat) : List Nat :=
  P.pbkdf2 password salt (AES_KEY_LEN / 8) EXPANSION_COUNT

/-- `_expand_key(salt, password)` from the source: rejects an empty salt,
then an empty password, then returns
`PBKDF2(password, salt, dkLen=AES_KEY_LEN//8, count=EXPANSION_COUNT)`. -/
def expand_key (P : Prims) (salt password : List Nat) : Except CryptErr (List Nat) :=
  if salt = [] then .error .valueMissingSalt
  else if password = [] then .error .valueMissingPassword
  else .ok (derived_key P password salt)

/-- `AES.new(key, AES.MODE_CTR, counter=cfg).encrypt(data)` (and equally
`.decrypt(data)`): for a CTR-mode stream cipher both directions XOR the
data against the keystream determined by the key and the counter
configuration. -/
def cipher_encrypt (P : Prims) (key : List Nat) (cfg : CtrCfg) (data : List Nat) : List Nat :=
  ctr_xor (P.keystream key cfg) 0 data

/-- The `Counter.new(HALF_BLOCK, prefix=salt[:HALF_BLOCK//8])` call on the
encryption path (source line 38). -/
def encCounter (salt : List Nat) : CtrCfg :=
  counterNew HALF_BLOCK (salt.take (HALF_BLOCK / 8))

/-- The `Counter.new(HALF_BLOCK, prefix=salt[:HALF_BLOCK//8])` call on the
decryption path (source line 64). -/
def decCounter (salt : List Nat) : CtrCfg :=
  counterNew HALF_BLOCK (salt.take (HALF_BLOCK / 8))

/-- `encrypt(password, data)` from the source.  The random source is the
stream `rand`; the second component of the result is the number of random
bytes the call drew from it. -/
def encrypt (P : Prims) (rand : Nat → Nat) (password data : List Nat) :
    Except CryptErr (List Nat) × Nat :=
  match assert_encrypt_length data with
  | .error e => (.error e, 0)
  | .ok _ =>
    let salt := priv_randbytes rand (SALT_LEN / 8)
    match expand_key P salt password with
    | .error e => (.error e, SALT_LEN / 8)
    | .ok key =>
      let encrypted := cipher_encrypt P key (encCounter salt) data
      let hmac := P.hmacNew key (FORMAT_HEADER ++ salt ++ encrypted)
      (.ok (FORMAT_HEADER ++ salt ++ encrypted ++ hmac), SALT_LEN / 8)

/-- `decrypt(password, data)` from the source.  Python slices are rendered
with `List.take` / `List.drop`: `raw = data[len(PREFIX):]`,
`salt = raw[:SALT_LEN//8]`, `hmac = raw[-digest:]`,
`data[:-digest]`, `raw[SALT_LEN//8:-digest]`. -/
def decrypt (P : Prims) (password data : List Nat) : Except CryptErr (List Nat) :=
  match assert_decrypt_length data with
  | .error e => .error e
  | .ok _ =>
    match assert_format_marker data with
    | .error e => .error e
    | .ok _ =>
      let raw := data.drop FORMAT_HEADER.length
      let salt := raw.take (SALT_LEN / 8)
      match expand_key P salt password with
      | .error e => .error e
      | .ok key =>
        let hmac := raw.drop (raw.length - HASH_digest_size)
        let hmac2 := P.hmacNew key (data.take (data.length - HASH_digest_size))
        match assert_hmac P hmac hmac2 with
        | .error e => .error e
        | .ok _ =>
          .ok (cipher_encrypt P key (decCounter salt)
            ((raw.drop (SALT_LEN / 8)).take (raw.length - HASH_digest_size - SALT_LEN / 8)))

/-- The stored tag `raw[-HASH.digest_size:]` that `decrypt` reads out of an
envelope. -/
def storedTag (data : List Nat) : List Nat :=
  (data.drop FORMAT_HEADER.length).drop
    ((data.drop FORMAT_HEADER.length).length - HASH_digest_size)

/-- The tag `HMAC.new(key, data[:-HASH.digest_size], HASH).digest()` that
`decrypt` recomputes for an envelope. -/
def expectedTag (P : Prims) (password data : List Nat) : List Nat :=
  P.hmacNew (derived_key P password ((data.drop FORMAT_HEADER.length).take (SALT_LEN / 8)))
    (data.take (data.length - HASH_digest_size))

/-- A concrete instantiation of the external primitives, used to evaluate
the development on closed inputs. -/
def P0 : Prims where
  pbkdf2 := fun _ _ dkLen _ => List.replicate dkLen 0
  hmacNew := fun _ _ => List.replicate 32 0
  shaNew := fun data => data
  keystream := fun _ _ _ => 7

/-- Sanity check: the embedding is executable, and on a concrete input
`encrypt` produces the expected envelope bytes. -/
theorem encrypt_concrete_eval : (encrypt P0 (fun _ => 3) [1] [5, 6]).1 =
    .ok ([115, 99, 0, 0] ++ List.replicate 16 3 ++
      [Nat.xor 5 7, Nat.xor 6 7] ++ List.replicate 32 0) := by
  rfl

/-- Sanity check: on the corresponding concrete envelope `decrypt` recovers
the plaintext. -/
theorem decrypt_concrete_eval :
    decrypt P0 [1] ([115, 99, 0, 0] ++ List.replicate 16 3 ++
      [Nat.xor 5 7, Nat.xor 6 7] ++ List.replicate 32 0) = .ok [5, 6] := by
  rfl

/-- XOR against a keystream preserves the length of the data. -/
theorem ctr_xor_length (ks : Nat → Nat) (i : Nat) (l : List Nat) :
    (ctr_xor ks i l).length = l.length := by
  induction l generalizing i with
  | nil => rfl
  | cons b rest ih => simp [ctr_xor, ih]

/-- XOR against the same keystream twice (from the same index) is the
identity: the CTR-mode decryption of a CTR-mode encryption. -/
theorem ctr_xor_ctr_xor (ks : Nat → Nat) (i : Nat) (l : List Nat) :
    ctr_xor ks i (ctr_xor ks i l) = l := by
  induction l generalizing i with
  | nil => rfl
  | cons b rest ih =>
    simp only [ctr_xor, ih]
    congr 1
    exact Nat.xor_cancel_right (ks i) b

/-- `cipher_encrypt` preserves length. -/
theorem cipher_encrypt_length (P : Prims) (key : List Nat) (cfg : CtrCfg) (data : List Nat) :
    (cipher_encrypt P key cfg data).length = data.length :=
  ctr_xor_length _ _ _

/-- Decrypting with the same key and counter configuration undoes
`cipher_encrypt`. -/
theorem cipher_encrypt_cipher_encrypt (P : Prims) (key : List Nat) (cfg : CtrCfg)
    (data : List Nat) :
    cipher_encrypt P key cfg (cipher_encrypt P key cfg data) = data :=
  ctr_xor_ctr_xor _ _ _

/-- `_randbytes` draws exactly the requested number of bytes. -/
theorem priv_randbytes_length (rand : Nat → Nat) (n : Nat) :
    (priv_randbytes rand n).length = n := by
  simp [priv_randbytes]

/-- On a non-empty password and an in-bounds plaintext, `encrypt` succeeds
and its envelope is the concatenation of the format marker, the drawn salt,
the CTR ciphertext, and the HMAC tag; it draws `SALT_LEN/8` random bytes. -/
theorem encrypt_spec (P : Prims) (rand : Nat → Nat) (password data : List Nat)
    (hpw : password ≠ []) (hlen : data.length ≤ 2 ^ HALF_BLOCK) :
    encrypt P rand password data =
      (.ok (FORMAT_HEADER ++ priv_randbytes rand (SALT_LEN / 8) ++
          cipher_encrypt P (derived_key P password (priv_randbytes rand (SALT_LEN / 8)))
            (encCounter (priv_randbytes rand (SALT_LEN / 8))) data ++
          P.hmacNew (derived_key P password (priv_randbytes rand (SALT_LEN / 8)))
            (FORMAT_HEADER ++ priv_randbytes rand (SALT_LEN / 8) ++
              cipher_encrypt P (derived_key P password (priv_randbytes rand (SALT_LEN / 8)))
                (encCounter (priv_randbytes rand (SALT_LEN / 8))) data)),
        SALT_LEN / 8) := by
  have h1 : assert_encrypt_length data = .ok () := by
    simp only [assert_encrypt_length]
    rw [if_neg (by omega : ¬ data.length > 2 ^ HALF_BLOCK)]
  have hsalt : priv_randbytes rand (SALT_LEN / 8) ≠ [] := by
    intro h
    have h2 := priv_randbytes_length rand (SALT_LEN / 8)
    rw [h] at h2
    exact absurd h2.symm (by decide)
  have h2 : expand_key P (priv_randbytes rand (SALT_LEN / 8)) password =
      .ok (derived_key P password (priv_randbytes rand (SALT_LEN / 8))) := by
    simp [expand_key, hsalt, hpw]
  simp only [encrypt, h1, h2]

/-- The salt drawn by `encrypt` is never the empty byte string. -/
theorem priv_randbytes_ne_nil (rand : Nat → Nat) : priv_randbytes rand (SALT_LEN / 8) ≠ [] := by
  intro h
  have h2 := priv_randbytes_length rand (SALT_LEN / 8)
  rw [h] at h2
  exact absurd h2.symm (by decide)

/-- The salt slice `raw[:SALT_LEN//8]` that `decrypt` extracts from an
envelope of at least the minimum length is never empty. -/
theorem salt_slice_ne_nil (data : List Nat)
    (hlen : FORMAT_HEADER.length + SALT_LEN / 8 + HASH_digest_size ≤ data.length) :
    (data.drop FORMAT_HEADER.length).take (SALT_LEN / 8) ≠ [] := by
  have hF : FORMAT_HEADER.length = 4 := rfl
  have hS : SALT_LEN / 8 = 16 := rfl
  have hH : HASH_digest_size = 32 := rfl
  intro hcon
  have hl := congrArg List.length hcon
  rw [List.length_take, List.length_drop] at hl
  simp only [List.length_nil] at hl
  omega

/-- The slices `decrypt` takes out of an envelope of the canonical shape
`marker ++ salt ++ ct ++ tag` recover exactly the components: the salt, the
stored tag, the HMAC coverage `data[:-digest]`, and the ciphertext. -/
theorem canonical_slices (salt ct tag : List Nat)
    (hsalt : salt.length = SALT_LEN / 8) (htag : tag.length = HASH_digest_size) :
    ((FORMAT_HEADER ++ salt ++ ct ++ tag).drop FORMAT_HEADER.length).take (SALT_LEN / 8) =
      salt ∧
    storedTag (FORMAT_HEADER ++ salt ++ ct ++ tag) = tag ∧
    (FORMAT_HEADER ++ salt ++ ct ++ tag).take
        ((FORMAT_HEADER ++ salt ++ ct ++ tag).length - HASH_digest_size) =
      FORMAT_HEADER ++ salt ++ ct ∧
    (((FORMAT_HEADER ++ salt ++ ct ++ tag).drop FORMAT_HEADER.length).drop (SALT_LEN / 8)).take
        (((FORMAT_HEADER ++ salt ++ ct ++ tag).drop FORMAT_HEADER.length).length -
          HASH_digest_size - SALT_LEN / 8) = ct := by
  have hF : FORMAT_HEADER.length = 4 := rfl
  have hS : SALT_LEN / 8 = 16 := rfl
  have hH : HASH_digest_size = 32 := rfl
  have hassoc : FORMAT_HEADER ++ salt ++ ct ++ tag =
      FORMAT_HEADER ++ (salt ++ (ct ++ tag)) := by
    simp [List.append_assoc]
  have hraw : (FORMAT_HEADER ++ salt ++ ct ++ tag).drop FORMAT_HEADER.length =
      salt ++ (ct ++ tag) := by
    rw [hassoc]
    exact List.drop_left FORMAT_HEADER (salt ++ (ct ++ tag))
  refine ⟨?_, ?_, ?_, ?_⟩
  · rw [hraw]
    exact List.take_left' hsalt
  · rw [storedTag, hraw]
    rw [show salt ++ (ct ++ tag) = salt ++ ct ++ tag from (List.append_assoc salt ct tag).symm]
    refine List.drop_left' ?_
    simp only [List.length_append, hsalt, htag]
    omega
  · refine List.take_left' ?_
    simp only [List.length_append, hsalt, htag]
    omega
  · rw [hraw, List.drop_left' hsalt]
    refine List.take_left' ?_
    simp only [List.length_append, hsalt, htag]
    omega

/-- On an envelope that passes the minimum-length and format checks, with a
non-empty password, `decrypt` reduces to the tag comparison: it fails with
the generic bad-HMAC condition exactly when the digests of the stored and
recomputed tags differ, and otherwise CTR-decrypts the ciphertext slice. -/
theorem decrypt_checked (P : Prims) (password data : List Nat)
    (hlen : FORMAT_HEADER.length + SALT_LEN / 8 + HASH_digest_size ≤ data.length)
    (hpre : data.take FORMAT_HEADER.length = FORMAT_HEADER)
    (hpw : password ≠ []) :
    decrypt P password data =
      if priv_hash P (storedTag data) ≠ priv_hash P (expectedTag P password data) then
        .error .decBadHmac
      else
        .ok (cipher_encrypt P
          (derived_key P password ((data.drop FORMAT_HEADER.length).take (SALT_LEN / 8)))
          (decCounter ((data.drop FORMAT_HEADER.length).take (SALT_LEN / 8)))
          (((data.drop FORMAT_HEADER.length).drop (SALT_LEN / 8)).take
            ((data.drop FORMAT_HEADER.length).length - HASH_digest_size - SALT_LEN / 8))) := by
  have h1 : assert_decrypt_length data = .ok () := by
    simp only [assert_decrypt_length]
    rw [if_neg (by omega : ¬ data.length <
      FORMAT_HEADER.length + SALT_LEN / 8 + HASH_digest_size)]
  have h2 : assert_format_marker data = .ok () := by
    simp [assert_format_marker, hpre]
  have hsalt := salt_slice_ne_nil data hlen
  have h3 : expand_key P ((data.drop FORMAT_HEADER.length).take (SALT_LEN / 8)) password =
      .ok (derived_key P password ((data.drop FORMAT_HEADER.length).take (SALT_LEN / 8))) := by
    simp [expand_key, hsalt, hpw]
  simp only [decrypt, h1, h2, h3, assert_hmac, storedTag, expectedTag]
  by_cases hc : priv_hash P
      ((data.drop FORMAT_HEADER.length).drop
        ((data.drop FORMAT_HEADER.length).length - HASH_digest_size)) =
      priv_hash P (P.hmacNew
        (derived_key P password ((data.drop FORMAT_HEADER.length).take (SALT_LEN / 8)))
        (data.take (data.length - HASH_digest_size)))
  · rw [if_neg (not_not_intro hc), if_neg (not_not_intro hc)]
  · rw [if_pos hc, if_pos hc]

/-- `decrypt` succeeds on any envelope of the canonical shape produced by
encryption: format marker, a full-length salt, any ciphertext, and the HMAC
of the first three components under the key derived from the password and
the salt.  It returns the CTR decryption of the ciphertext. -/
theorem decrypt_canonical_ok (P : Prims) (password salt ct tag : List Nat)
    (hpw : password ≠ []) (hsalt : salt.length = SALT_LEN / 8)
    (htag : tag.length = HASH_digest_size)
    (htagval : tag = P.hmacNew (derived_key P password salt) (FORMAT_HEADER ++ salt ++ ct)) :
    decrypt P password (FORMAT_HEADER ++ salt ++ ct ++ tag) =
      .ok (cipher_encrypt P (derived_key P password salt) (decCounter salt) ct) := by
  obtain ⟨hs, hst, hexp, hct⟩ := canonical_slices salt ct tag hsalt htag
  have hlen : FORMAT_HEADER.length + SALT_LEN / 8 + HASH_digest_size ≤
      (FORMAT_HEADER ++ salt ++ ct ++ tag).length := by
    simp only [List.length_append, hsalt, htag]
    omega
  have hpre : (FORMAT_HEADER ++ salt ++ ct ++ tag).take FORMAT_HEADER.length =
      FORMAT_HEADER := by
    rw [show FORMAT_HEADER ++ salt ++ ct ++ tag =
        FORMAT_HEADER ++ (salt ++ (ct ++ tag)) from by simp [List.append_assoc]]
    exact List.take_left' rfl
  have hexp2 : expectedTag P password (FORMAT_HEADER ++ salt ++ ct ++ tag) = tag := by
    simp only [expectedTag]
    rw [hs, hexp]
    rw [htagval]
  rw [decrypt_checked P password _ hlen hpre hpw, hst, hexp2, if_neg (by simp), hs, hct]

/-- C1: for every non-empty password and every plaintext with length below
the size bound, and whatever bytes the random source supplies for the salt,
decrypting the envelope produced by `encrypt` with the same password
returns the original plaintext. -/
theorem C1_round_trip (P : Prims) (rand : Nat → Nat) (password data : List Nat)
    (hdig : ∀ k m, (P.hmacNew k m).length = HASH_digest_size)
    (hpw : password ≠ []) (hlen : data.length < 2 ^ HALF_BLOCK) :
    ∃ env n, encrypt P rand password data = (.ok env, n) ∧
      decrypt P password env = .ok data := by
  have hspec := encrypt_spec P rand password data hpw (le_of_lt hlen)
  refine ⟨_, _, hspec, ?_⟩
  rw [decrypt_canonical_ok P password (priv_randbytes rand (SALT_LEN / 8))
    (cipher_encrypt P (derived_key P password (priv_randbytes rand (SALT_LEN / 8)))
      (encCounter (priv_randbytes rand (SALT_LEN / 8))) data)
    _ hpw (priv_randbytes_length rand _) (hdig _ _) rfl]
  rw [show decCounter (priv_randbytes rand (SALT_LEN / 8)) =
    encCounter (priv_randbytes rand (SALT_LEN / 8)) from rfl]
  rw [cipher_encrypt_cipher_encrypt]

/-- Witness for C1 at concrete inputs: password `[1]`, plaintext `[5, 6]`,
random stream constantly `3`. -/
theorem C1_round_trip_witness :
    (∀ k m, (P0.hmacNew k m).length = HASH_digest_size) ∧
    ([1] : List Nat) ≠ [] ∧ ([5, 6] : List Nat).length < 2 ^ HALF_BLOCK ∧
    ∃ env n, encrypt P0 (fun _ => 3) [1] [5, 6] = (.ok env, n) ∧
      decrypt P0 [1] env = .ok [5, 6] := by
  refine ⟨fun k m => rfl, by decide, by decide, ?_⟩
  exact C1_round_trip P0 (fun _ => 3) [1] [5, 6] (fun k m => rfl) (by decide) (by decide)

/-- C5: any envelope strictly shorter than the combined length of the
format marker, salt, and tag makes `decrypt` fail with the missing-data
condition, for every password and every content — in particular before the
format, key-derivation, or tag checks could influence the outcome. -/
theorem C5_truncated_missing_data (P : Prims) (password data : List Nat)
    (h : data.length < FORMAT_HEADER.length + SALT_LEN / 8 + HASH_digest_size) :
    decrypt P password data = .error .decMissingData := by
  have h1 : assert_decrypt_length data = .error .decMissingData := by
    simp [assert_decrypt_length, h]
  simp only [decrypt, h1]

/-- Witness for C5: the empty envelope with an empty password. -/
theorem C5_truncated_missing_data_witness :
    ([] : List Nat).length < FORMAT_HEADER.length + SALT_LEN / 8 + HASH_digest_size ∧
    decrypt P0 [] [] = .error .decMissingData :=
  ⟨by decide, C5_truncated_missing_data P0 [] [] (by decide)⟩

/-- C6: any envelope of at least the minimum length whose leading bytes are
not exactly the constant format marker makes `decrypt` fail with the
bad-format condition, for every password. -/
theorem C6_bad_format (P : Prims) (password data : List Nat)
    (hlen : FORMAT_HEADER.length + SALT_LEN / 8 + HASH_digest_size ≤ data.length)
    (hpre : data.take FORMAT_HEADER.length ≠ FORMAT_HEADER) :
    decrypt P password data = .error .decBadFormat := by
  have h1 : assert_decrypt_length data = .ok () := by
    simp only [assert_decrypt_length]
    rw [if_neg (by omega : ¬ data.length <
      FORMAT_HEADER.length + SALT_LEN / 8 + HASH_digest_size)]
  have h2 : assert_format_marker data = .error .decBadFormat := by
    simp [assert_format_marker, hpre]
  simp only [decrypt, h1, h2]

/-- Witness for C6: a 52-byte all-zero envelope (its first 4 bytes are not
the format marker). -/
theorem C6_bad_format_witness :
    FORMAT_HEADER.length + SALT_LEN / 8 + HASH_digest_size ≤ (List.replicate 52 0).length ∧
    (List.replicate 52 0).take FORMAT_HEADER.length ≠ FORMAT_HEADER ∧
    decrypt P0 [1] (List.replicate 52 0) = .error .decBadFormat :=
  ⟨by decide, by decide, C6_bad_format P0 [1] (List.replicate 52 0) (by decide) (by decide)⟩

/-- C8: encryption and decryption construct the counter-mode cipher state
identically — the counter is `HALF_BLOCK` bits wide and its fixed nonce
prefix is the first `HALF_BLOCK/8` bytes (the first half-block) of the
salt — so for the same salt and derived key the keystream used to decrypt
equals the keystream used to encrypt, byte for byte. -/
theorem C8_counter_state (P : Prims) (key salt : List Nat) :
    decCounter salt = encCounter salt ∧
    (encCounter salt).ctrBits = HALF_BLOCK ∧
    (encCounter salt).fixedPfx = salt.take (HALF_BLOCK / 8) ∧
    ∀ i, P.keystream key (decCounter salt) i = P.keystream key (encCounter salt) i :=
  ⟨rfl, rfl, rfl, fun _ => rfl⟩

/-- C2 counterexample: the claim says a plaintext one byte longer than the
maximum allowed size — i.e. of length exactly `2 ^ HALF_BLOCK`, given the
claimed strict bound — fails with the message-too-long condition.  In the
code the length check uses a strict `>` against `2 ^ HALF_BLOCK`, so a
plaintext of exactly `2 ^ HALF_BLOCK` bytes passes the check and `encrypt`
does not fail with message-too-long on it. -/
theorem C2_counterexample :
    assert_encrypt_length (List.replicate (2 ^ HALF_BLOCK) 0) = Except.ok () ∧
    (encrypt P0 (fun _ => 0) [1] (List.replicate (2 ^ HALF_BLOCK) 0)).1 ≠
      Except.error CryptErr.encMessageTooLong := by
  have hlen : (List.replicate (2 ^ HALF_BLOCK) (0 : Nat)).length = 2 ^ HALF_BLOCK := by
    simp
  constructor
  · simp only [assert_encrypt_length, hlen]
    rw [if_neg (by omega : ¬ 2 ^ HALF_BLOCK > 2 ^ HALF_BLOCK)]
  · rw [encrypt_spec P0 (fun _ => 0) [1] (List.replicate (2 ^ HALF_BLOCK) 0)
      (by decide) (by omega)]
    simp

/-- C2 (amended): the length gate accepts exactly the plaintexts whose
length is at most `2 ^ HALF_BLOCK` (equivalently, strictly less than
`2 ^ HALF_BLOCK + 1`): a plaintext of exactly `2 ^ HALF_BLOCK` bytes passes
the check and a plaintext one byte longer fails with message-too-long. -/
theorem C2_length_gate (data : List Nat) :
    (assert_encrypt_length data = .ok () ↔ data.length ≤ 2 ^ HALF_BLOCK) ∧
    (assert_encrypt_length data = .error .encMessageTooLong ↔
      2 ^ HALF_BLOCK < data.length) ∧
    assert_encrypt_length (List.replicate (2 ^ HALF_BLOCK) 0) = .ok () ∧
    assert_encrypt_length (List.replicate (2 ^ HALF_BLOCK + 1) 0) =
      .error .encMessageTooLong := by
  refine ⟨?_, ?_, ?_, ?_⟩
  · simp only [assert_encrypt_length]
    by_cases h : data.length > 2 ^ HALF_BLOCK
    · rw [if_pos h]
      constructor
      · intro hcon
        exact absurd hcon (by simp)
      · intro hle
        exact absurd h (by omega)
    · rw [if_neg h]
      constructor
      · intro _
        omega
      · intro _
        rfl
  · simp only [assert_encrypt_length]
    by_cases h : data.length > 2 ^ HALF_BLOCK
    · rw [if_pos h]
      constructor
      · intro _
        omega
      · intro _
        rfl
    · rw [if_neg h]
      constructor
      · intro hcon
        exact absurd hcon (by simp)
      · intro hlt
        exact absurd hlt h
  · have hlen : (List.replicate (2 ^ HALF_BLOCK) (0 : Nat)).length = 2 ^ HALF_BLOCK := by
      simp
    simp only [assert_encrypt_length, hlen]
    rw [if_neg (by omega : ¬ 2 ^ HALF_BLOCK > 2 ^ HALF_BLOCK)]
  · have hlen : (List.replicate (2 ^ HALF_BLOCK + 1) (0 : Nat)).length =
        2 ^ HALF_BLOCK + 1 := by
      simp
    simp only [assert_encrypt_length, hlen]
    rw [if_pos (by omega : 2 ^ HALF_BLOCK + 1 > 2 ^ HALF_BLOCK)]

/-- C3: every envelope `encrypt` returns is the 4-byte format marker, then
the 16-byte salt, then a ciphertext of the plaintext's length, then the
32-byte tag, so its total length is `52 + len(plaintext)`. -/
theorem C3_envelope_layout (P : Prims) (rand : Nat → Nat)
    (password data env : List Nat) (n : Nat)
    (hdig : ∀ k m, (P.hmacNew k m).length = HASH_digest_size)
    (henc : encrypt P rand password data = (.ok env, n)) :
    ∃ salt ct tag, env = FORMAT_HEADER ++ salt ++ ct ++ tag ∧
      FORMAT_HEADER.length = 4 ∧ salt.length = 16 ∧ ct.length = data.length ∧
      tag.length = 32 ∧ env.length = 52 + data.length := by
  have hF : FORMAT_HEADER.length = 4 := rfl
  have hS : SALT_LEN / 8 = 16 := rfl
  have hH : HASH_digest_size = 32 := rfl
  by_cases hlen : data.length > 2 ^ HALF_BLOCK
  · exfalso
    have h1 : assert_encrypt_length data = .error .encMessageTooLong := by
      simp [assert_encrypt_length, hlen]
    simp only [encrypt, h1] at henc
    simp at henc
  · by_cases hpw : password = []
    · exfalso
      have h1 : assert_encrypt_length data = .ok () := by
        simp only [assert_encrypt_length]
        rw [if_neg hlen]
      have h2 : expand_key P (priv_randbytes rand (SALT_LEN / 8)) password =
          .error .valueMissingPassword := by
        simp [expand_key, priv_randbytes_ne_nil rand, hpw]
      simp only [encrypt, h1, h2] at henc
      simp at henc
    · rw [encrypt_spec P rand password data hpw (by omega)] at henc
      simp only [Prod.mk.injEq, Except.ok.injEq] at henc
      obtain ⟨henv, hn⟩ := henc
      refine ⟨priv_randbytes rand (SALT_LEN / 8),
        cipher_encrypt P (derived_key P password (priv_randbytes rand (SALT_LEN / 8)))
          (encCounter (priv_randbytes rand (SALT_LEN / 8))) data,
        P.hmacNew (derived_key P password (priv_randbytes rand (SALT_LEN / 8)))
          (FORMAT_HEADER ++ priv_randbytes rand (SALT_LEN / 8) ++
            cipher_encrypt P (derived_key P password (priv_randbytes rand (SALT_LEN / 8)))
              (encCounter (priv_randbytes rand (SALT_LEN / 8))) data),
        henv.symm, rfl, ?_, cipher_encrypt_length P _ _ _, ?_, ?_⟩
      · rw [priv_randbytes_length]
        exact hS
      · rw [hdig]
        exact hH
      · rw [← henv]
        simp only [List.length_append, priv_randbytes_length, cipher_encrypt_length,
          hdig, hF, hS, hH]
        omega

/-- Witness for C3 at concrete inputs: the 63-byte envelope for an 11-byte
analogue is checked here with a 2-byte plaintext, giving a 54-byte
envelope of the stated shape. -/
theorem C3_envelope_layout_witness :
    encrypt P0 (fun _ => 3) [1] [5, 6] =
      (.ok ([115, 99, 0, 0] ++ List.replicate 16 3 ++
        [Nat.xor 5 7, Nat.xor 6 7] ++ List.replicate 32 0), 16) ∧
    ∃ salt ct tag,
      [115, 99, 0, 0] ++ List.replicate 16 3 ++
          [Nat.xor 5 7, Nat.xor 6 7] ++ List.replicate 32 0 =
        FORMAT_HEADER ++ salt ++ ct ++ tag ∧
      FORMAT_HEADER.length = 4 ∧ salt.length = 16 ∧
      ct.length = ([5, 6] : List Nat).length ∧ tag.length = 32 ∧
      ([115, 99, 0, 0] ++ List.replicate 16 3 ++
          [Nat.xor 5 7, Nat.xor 6 7] ++ List.replicate 32 0).length =
        52 + ([5, 6] : List Nat).length :=
  ⟨rfl, C3_envelope_layout P0 (fun _ => 3) [1] [5, 6]
    ([115, 99, 0, 0] ++ List.replicate 16 3 ++
      [Nat.xor 5 7, Nat.xor 6 7] ++ List.replicate 32 0) 16
    (fun k m => rfl) (by rfl)⟩

/-- C4: on an envelope passing the length and format checks (with a
non-empty password, so key derivation succeeds), `decrypt` fails with the
single generic bad-password-or-corrupt condition exactly when the digest of
the stored tag differs from the digest of the recomputed expected tag, and
it returns a plaintext only when the two digests agree. -/
theorem C4_tag_verification (P : Prims) (password data : List Nat)
    (hlen : FORMAT_HEADER.length + SALT_LEN / 8 + HASH_digest_size ≤ data.length)
    (hpre : data.take FORMAT_HEADER.length = FORMAT_HEADER)
    (hpw : password ≠ []) :
    (decrypt P password data = .error .decBadHmac ↔
      priv_hash P (storedTag data) ≠ priv_hash P (expectedTag P password data)) ∧
    (∀ pt, decrypt P password data = .ok pt →
      priv_hash P (storedTag data) = priv_hash P (expectedTag P password data)) := by
  have h := decrypt_checked P password data hlen hpre hpw
  by_cases hc : priv_hash P (storedTag data) ≠ priv_hash P (expectedTag P password data)
  · rw [h, if_pos hc]
    refine ⟨⟨fun _ => hc, fun _ => rfl⟩, ?_⟩
    intro pt hpt
    exact absurd hpt (by simp)
  · rw [h, if_neg hc]
    rw [not_not] at hc
    refine ⟨?_, fun pt _ => hc⟩
    constructor
    · intro hcon
      exact absurd hcon (by simp)
    · intro hne
      exact absurd hc hne

/-- Witness for C4 at concrete inputs: a well-formed 52-byte envelope whose
tag happens to verify under the concrete primitives (both sides reduce to
the same constant digest), so `decrypt` succeeds and both conjuncts are
exercised. -/
theorem C4_tag_verification_witness :
    FORMAT_HEADER.length + SALT_LEN / 8 + HASH_digest_size ≤
      (FORMAT_HEADER ++ List.replicate 48 0).length ∧
    (FORMAT_HEADER ++ List.replicate 48 0).take FORMAT_HEADER.length = FORMAT_HEADER ∧
    ([1] : List Nat) ≠ [] ∧
    ((decrypt P0 [1] (FORMAT_HEADER ++ List.replicate 48 0) = .error .decBadHmac ↔
      priv_hash P0 (storedTag (FORMAT_HEADER ++ List.replicate 48 0)) ≠
        priv_hash P0 (expectedTag P0 [1] (FORMAT_HEADER ++ List.replicate 48 0))) ∧
     ∀ pt, decrypt P0 [1] (FORMAT_HEADER ++ List.replicate 48 0) = .ok pt →
      priv_hash P0 (storedTag (FORMAT_HEADER ++ List.replicate 48 0)) =
        priv_hash P0 (expectedTag P0 [1] (FORMAT_HEADER ++ List.replicate 48 0))) :=
  ⟨by decide, by decide, by decide,
    C4_tag_verification P0 [1] (FORMAT_HEADER ++ List.replicate 48 0)
      (by decide) (by decide) (by decide)⟩

/-- C7: the tag stored by `encrypt` is the HMAC, under the derived key, of
(format marker ‖ salt ‖ ciphertext), and the byte string over which
`decrypt` recomputes the expected tag — every envelope byte except the
trailing 32 — equals that same (format marker ‖ salt ‖ ciphertext) for any
envelope `encrypt` produces. -/
theorem C7_tag_coverage (P : Prims) (rand : Nat → Nat)
    (password data env : List Nat) (n : Nat)
    (hdig : ∀ k m, (P.hmacNew k m).length = HASH_digest_size)
    (henc : encrypt P rand password data = (.ok env, n)) :
    ∃ salt ct, env = FORMAT_HEADER ++ salt ++ ct ++
        P.hmacNew (derived_key P password salt) (FORMAT_HEADER ++ salt ++ ct) ∧
      env.take (env.length - HASH_digest_size) = FORMAT_HEADER ++ salt ++ ct := by
  by_cases hlen : data.length > 2 ^ HALF_BLOCK
  · exfalso
    have h1 : assert_encrypt_length data = .error .encMessageTooLong := by
      simp [assert_encrypt_length, hlen]
    simp only [encrypt, h1] at henc
    simp at henc
  · by_cases hpw : password = []
    · exfalso
      have h1 : assert_encrypt_length data = .ok () := by
        simp only [assert_encrypt_length]
        rw [if_neg hlen]
      have h2 : expand_key P (priv_randbytes rand (SALT_LEN / 8)) password =
          .error .valueMissingPassword := by
        simp [expand_key, priv_randbytes_ne_nil rand, hpw]
      simp only [encrypt, h1, h2] at henc
      simp at henc
    · rw [encrypt_spec P rand password data hpw (by omega)] at henc
      simp only [Prod.mk.injEq, Except.ok.injEq] at henc
      obtain ⟨henv, hn⟩ := henc
      refine ⟨priv_randbytes rand (SALT_LEN / 8),
        cipher_encrypt P (derived_key P password (priv_randbytes rand (SALT_LEN / 8)))
          (encCounter (priv_randbytes rand (SALT_LEN / 8))) data,
        henv.symm, ?_⟩
      rw [← henv]
      exact (canonical_slices _ _ _ (priv_randbytes_length rand _) (hdig _ _)).2.2.1

/-- Witness for C7 at concrete inputs. -/
theorem C7_tag_coverage_witness :
    encrypt P0 (fun _ => 3) [1] [5, 6] =
      (.ok ([115, 99, 0, 0] ++ List.replicate 16 3 ++
        [Nat.xor 5 7, Nat.xor 6 7] ++ List.replicate 32 0), 16) ∧
    ∃ salt ct,
      [115, 99, 0, 0] ++ List.replicate 16 3 ++
          [Nat.xor 5 7, Nat.xor 6 7] ++ List.replicate 32 0 =
        FORMAT_HEADER ++ salt ++ ct ++
          P0.hmacNew (derived_key P0 [1] salt) (FORMAT_HEADER ++ salt ++ ct) ∧
      ([115, 99, 0, 0] ++ List.replicate 16 3 ++
          [Nat.xor 5 7, Nat.xor 6 7] ++ List.replicate 32 0).take
        (([115, 99, 0, 0] ++ List.replicate 16 3 ++
          [Nat.xor 5 7, Nat.xor 6 7] ++ List.replicate 32 0).length - HASH_digest_size) =
        FORMAT_HEADER ++ salt ++ ct :=
  ⟨rfl, C7_tag_coverage P0 (fun _ => 3) [1] [5, 6]
    ([115, 99, 0, 0] ++ List.replicate 16 3 ++
      [Nat.xor 5 7, Nat.xor 6 7] ++ List.replicate 32 0) 16
    (fun k m => rfl) (by rfl)⟩

/-- C9: with an empty password and inputs that otherwise reach key
derivation, both operations fail with the invalid-argument condition
(`ValueError('Missing password')`). -/
theorem C9_empty_password (P : Prims) (rand : Nat → Nat) (data env : List Nat)
    (hlen : data.length ≤ 2 ^ HALF_BLOCK)
    (hlen2 : FORMAT_HEADER.length + SALT_LEN / 8 + HASH_digest_size ≤ env.length)
    (hpre : env.take FORMAT_HEADER.length = FORMAT_HEADER) :
    (encrypt P rand [] data).1 = .error .valueMissingPassword ∧
    decrypt P [] env = .error .valueMissingPassword := by
  constructor
  · have h1 : assert_encrypt_length data = .ok () := by
      simp only [assert_encrypt_length]
      rw [if_neg (by omega : ¬ data.length > 2 ^ HALF_BLOCK)]
    have h2 : expand_key P (priv_randbytes rand (SALT_LEN / 8)) ([] : List Nat) =
        .error .valueMissingPassword := by
      simp [expand_key, priv_randbytes_ne_nil rand]
    simp only [encrypt, h1, h2]
  · have h1 : assert_decrypt_length env = .ok () := by
      simp only [assert_decrypt_length]
      rw [if_neg (by omega : ¬ env.length <
        FORMAT_HEADER.length + SALT_LEN / 8 + HASH_digest_size)]
    have h2 : assert_format_marker env = .ok () := by
      simp [assert_format_marker, hpre]
    have h3 : expand_key P ((env.drop FORMAT_HEADER.length).take (SALT_LEN / 8))
        ([] : List Nat) = .error .valueMissingPassword := by
      simp [expand_key, salt_slice_ne_nil env hlen2]
    simp only [decrypt, h1, h2, h3]

/-- Witness for C9: `encrypt("", b"x")` (byte 120) and decryption of a
well-formed 52-byte envelope with the empty password. -/
theorem C9_empty_password_witness :
    ([120] : List Nat).length ≤ 2 ^ HALF_BLOCK ∧
    FORMAT_HEADER.length + SALT_LEN / 8 + HASH_digest_size ≤
      (FORMAT_HEADER ++ List.replicate 48 0).length ∧
    (FORMAT_HEADER ++ List.replicate 48 0).take FORMAT_HEADER.length = FORMAT_HEADER ∧
    (encrypt P0 (fun _ => 0) [] [120]).1 = .error .valueMissingPassword ∧
    decrypt P0 [] (FORMAT_HEADER ++ List.replicate 48 0) =
      .error .valueMissingPassword :=
  ⟨by decide, by decide, by decide,
    C9_empty_password P0 (fun _ => 0) [120] (FORMAT_HEADER ++ List.replicate 48 0)
      (by decide) (by decide) (by decide)⟩

/-- C10: the message-length check runs before any randomness is drawn and
before the password is examined: on an over-length plaintext `encrypt`
fails with message-too-long — even for the empty password — and consumes
zero random bytes. -/
theorem C10_length_check_first (P : Prims) (rand : Nat → Nat) (password data : List Nat)
    (h : 2 ^ HALF_BLOCK < data.length) :
    encrypt P rand password data = (.error .encMessageTooLong, 0) := by
  have h1 : assert_encrypt_length data = .error .encMessageTooLong := by
    simp [assert_encrypt_length, h]
  simp only [encrypt, h1]

/-- Witness for C10: a plaintext of `2 ^ HALF_BLOCK + 1` zero bytes with
the empty password. -/
theorem C10_length_check_first_witness :
    2 ^ HALF_BLOCK < (List.replicate (2 ^ HALF_BLOCK + 1) (0 : Nat)).length ∧
    encrypt P0 (fun _ => 0) [] (List.replicate (2 ^ HALF_BLOCK + 1) 0) =
      (.error .encMessageTooLong, 0) := by
  have h : 2 ^ HALF_BLOCK < (List.replicate (2 ^ HALF_BLOCK + 1) (0 : Nat)).length := by
    rw [List.length_replicate]
    omega
  exact ⟨h, C10_length_check_first P0 (fun _ => 0) [] _ h⟩
